import Mathlib

/-!
Verification of the httprouter core (rickb777/httprouter).

Go strings are modelled as `List Char`; handlers are opaque identifiers
(`Nat`); Go panics in registration code are modelled with `Except`.
The radix-tree sources (node.addRoute / node.getValue /
findCaseInsensitivePath / CleanPath / countParams) are not part of the
sources available here, only their callers and tests; those parts are
modelled from the specification and each such definition is marked
`Modelled from the spec:` in its doc comment.  Everything else is a
direct shallow embedding of the Go sources (api.go, context.go,
router.go (serveHTTP/allowed/ServeHTTP), additions.go (SubRouter),
stripsegments.go).
-/

namespace HttpRouter

/-- Convert a Lean string literal to the `List Char` representation used
for Go strings throughout this development. -/
def str (s : String) : List Char := s.toList

/-- Param is a single URL parameter, consisting of a key and a value
(context.go). -/
structure Param where
  key : List Char
  value : List Char
deriving DecidableEq, Repr

/-- Params is a Param-slice, as returned by the router (context.go). -/
abbrev Params := List Param

/-- ByName returns the value of the first Param whose key matches the given
name; the empty string if none matches (context.go, `Params.ByName`). -/
def byName (ps : Params) (name : List Char) : List Char :=
  match ps with
  | [] => []
  | p :: rest => if p.key = name then p.value else byName rest name

/-- The value stored in a request context under the private params key:
`none` models a context with no entry under `paramsKey`.  (context.go) -/
abbrev Ctx := Option Params

/-- WithParams adds the params into the context; when the context already
holds params, the new ones are appended (context.go, `WithParams`). -/
def WithParams (parent : Ctx) (ps : Params) : Ctx :=
  match parent with
  | some existing => some (existing ++ ps)
  | none => some ps

/-- GetParams gets params from context; a missing entry yields the nil
(empty) Params (context.go, `GetParams`). -/
def GetParams (ctx : Ctx) : Params :=
  match ctx with
  | some ps => ps
  | none => []

/-- Modelled from the spec: a segment of a route pattern (spec section 3,
missing tree source).  A segment is static, a parameter `:name` matching
exactly one non-empty path segment, or a catch-all `*name` matching the
remainder of the path including its leading slash. -/
inductive Seg where
  | static (s : List Char)
  | param (name : List Char)
  | catchAll (name : List Char)
deriving DecidableEq, Repr

/-- True when the segment text contains no wildcard marker. -/
def noWild (s : List Char) : Bool :=
  decide (Not (':' ∈ s ∨ '*' ∈ s))

/-- Modelled from the spec: parse one path segment of a route pattern
(spec section 3; the tree source that enforces this is missing).  Wildcard
markers must open the segment, wildcard names must be non-empty, and a
segment holds at most one wildcard. -/
def parseSeg (s : List Char) : Option Seg :=
  match s with
  | ':' :: rest =>
      if rest ≠ [] ∧ noWild rest then some (Seg.param rest) else none
  | '*' :: rest =>
      if rest ≠ [] ∧ noWild rest then some (Seg.catchAll rest) else none
  | _ => if noWild s then some (Seg.static s) else none

/-- Split a character list at every slash; never returns the empty list. -/
def splitSeg : List Char → List (List Char)
  | [] => [[]]
  | '/' :: rest => [] :: splitSeg rest
  | c :: rest =>
      match splitSeg rest with
      | s :: ss => (c :: s) :: ss
      | [] => [[c]]

/-- Modelled from the spec: the catch-all must be the final segment of a
pattern (spec section 3). -/
def catchAllTerminal : List Seg → Bool
  | [] => true
  | [_] => true
  | Seg.catchAll _ :: _ :: _ => false
  | _ :: rest => catchAllTerminal rest

/-- Modelled from the spec: parse a route pattern (spec section 3; tree
source missing).  The path must begin with a slash; the leading slash is
dropped and the remainder is split into segments. -/
def parsePattern (path : List Char) : Option (List Seg) :=
  match path with
  | '/' :: rest =>
      match (splitSeg rest).mapM parseSeg with
      | some pat => if catchAllTerminal pat then some pat else none
      | none => none
  | _ => none

/-- Split a request path into its segments; `none` when the path does not
begin with a slash. -/
def pathSegs (path : List Char) : Option (List (List Char)) :=
  match path with
  | '/' :: rest => some (splitSeg rest)
  | _ => none

/-- Rejoin path segments with slashes (inverse of `splitSeg`). -/
def joinSlash : List (List Char) → List Char
  | [] => []
  | [x] => x
  | x :: xs => x ++ '/' :: joinSlash xs

/-- Modelled from the spec: match a parsed pattern against the segments of
a request path (spec sections 3 and 4.2.2; tree source missing).  A static
segment must be equal, a parameter captures one non-empty segment, and a
terminal catch-all captures the remainder of the path including its
leading slash.  Captured params appear in wildcard-declaration order. -/
def matchSegs : List Seg → List (List Char) → Option Params
  | [], [] => some []
  | [Seg.catchAll n], x :: xs =>
      some [⟨n, '/' :: joinSlash (x :: xs)⟩]
  | Seg.static s :: pat, x :: xs =>
      if s = x then matchSegs pat xs else none
  | Seg.param n :: pat, x :: xs =>
      if x ≠ [] then (matchSegs pat xs).map (fun ps => ⟨n, x⟩ :: ps) else none
  | _, _ => none

/-- The wildcard names of a pattern, in declaration order. -/
def wildNames : List Seg → List (List Char)
  | [] => []
  | Seg.static _ :: rest => wildNames rest
  | Seg.param n :: rest => n :: wildNames rest
  | Seg.catchAll n :: rest => n :: wildNames rest

/-- A registered route of one method tree: the parsed pattern together
with an opaque handler identifier. -/
structure Route where
  pattern : List Seg
  handler : Nat
deriving DecidableEq, Repr

/-- Modelled from the spec: the dispatch rank of a segment kind.  The
lookup tries the static children of a node before falling through to its
wildcard child, and a parameter node before a catch-all (spec sections
4.2.2 and 3). -/
def segRank : Seg → Nat
  | Seg.static _ => 0
  | Seg.param _ => 1
  | Seg.catchAll _ => 2

/-- Lexicographic strict comparison of rank sequences. -/
def ranksLtB : List Nat → List Nat → Bool
  | _, [] => false
  | [], _ :: _ => true
  | a :: as, b :: bs => if a < b then true else if b < a then false else ranksLtB as bs

/-- Modelled from the spec: `better p q` holds when pattern `p` is tried
before pattern `q` by the tree walk — at the first divergence the more
static pattern wins (spec section 4.2.2). -/
def better (p q : List Seg) : Bool :=
  ranksLtB (p.map segRank) (q.map segRank)

/-- Modelled from the spec: the tree lookup realised over the list of
stored routes; keeps the most specific matching route (spec section
4.2.2). -/
def getValueAux (segs : List (List Char)) :
    Option (Route × Params) → List Route → Option (Route × Params)
  | acc, [] => acc
  | acc, rt :: rest =>
      match matchSegs rt.pattern segs with
      | none => getValueAux segs acc rest
      | some ps =>
          match acc with
          | none => getValueAux segs (some (rt, ps)) rest
          | some best =>
              if better rt.pattern best.1.pattern then
                getValueAux segs (some (rt, ps)) rest
              else getValueAux segs acc rest

/-- Modelled from the spec: the primary lookup over a method tree,
returning the handler of the most specific route matching the path
segments, with its captured params (spec section 4.2.2). -/
def getValue (rs : List Route) (segs : List (List Char)) : Option (Route × Params) :=
  getValueAux segs none rs

/-- Toggle a trailing slash on a segment list: drop a trailing empty
segment, otherwise append one. -/
def toggleSlash (segs : List (List Char)) : List (List Char) :=
  if segs.getLast? = some [] then segs.dropLast else segs ++ [[]]

/-- Modelled from the spec: the trailing-slash recommendation — the lookup
failed but the path with a trailing slash added or removed would match
(spec section 4.2.2). -/
def tsrOf (rs : List Route) (segs : List (List Char)) : Bool :=
  (getValue rs (toggleSlash segs)).isSome

/-- Modelled from the spec: `node.getValue` on one method tree, returning
(handler?, params, tsr) as the Go code does (spec section 4.2.2; tree
source missing).  When a handler is found the hint is irrelevant and
reported false; when none is found no params are reported. -/
def lookupTree (rs : List Route) (path : List Char) :
    Option Nat × Params × Bool :=
  match pathSegs path with
  | none => (none, [], false)
  | some segs =>
      match getValue rs segs with
      | some rp => (some rp.1.handler, rp.2, false)
      | none => (none, [], tsrOf rs segs)

/-- Registration errors; Go panics in `Router.Handle` / `node.addRoute`
are modelled as `Except.error` values (spec section 7). -/
inductive RegErr where
  | emptyMethod
  | invalidPath
  | nilHandle
  | malformedWildcard
  | duplicate
  | wildcardConflict
deriving DecidableEq, Repr

/-- Modelled from the spec: two patterns disagree on wildcard shape at the
same position — identical up to a position where both place a wildcard but
not the same one (spec sections 3, 4.2.1 and 7; tree source missing). -/
def wildConflict : List Seg → List Seg → Bool
  | p :: ps, q :: qs =>
      if p = q then wildConflict ps qs
      else (1 ≤ segRank p && 1 ≤ segRank q)
  | _, _ => false

/-- Modelled from the spec: `node.addRoute` realised over the stored route
list — the pattern is parsed and validated, duplicate registrations and
wildcard conflicts are rejected, and otherwise the route is stored (spec
sections 4.2.1 and 7; tree source missing). -/
def addRoute (rs : List Route) (path : List Char) (h : Nat) :
    Except RegErr (List Route) :=
  match parsePattern path with
  | none => Except.error RegErr.malformedWildcard
  | some pat =>
      if rs.any (fun r => r.pattern = pat) then Except.error RegErr.duplicate
      else if rs.any (fun r => wildConflict r.pattern pat) then
        Except.error RegErr.wildcardConflict
      else Except.ok (rs ++ [⟨pat, h⟩])

/-- Modelled from the spec: `countParams` — the number of wildcard markers
in a path, used for the running `maxParams` maximum (spec section 3; tree
source missing). -/
def countParams (path : List Char) : Nat :=
  (path.filter (fun c => c = ':' ∨ c = '*')).length

/-- The router state (api.go).  Handlers are opaque identifiers; the
params pool is not represented (it is a capacity optimisation with no
observable routing behaviour). -/
structure Router where
  trees : List (List Char × List Route) := []
  saveMatchedRoutePath : Bool := false
  redirectTrailingSlash : Bool := false
  redirectFixedPath : Bool := false
  handleMethodNotAllowed : Bool := false
  handleOPTIONS : Bool := false
  globalOPTIONS : Option Nat := none
  globalAllowed : List Char := []
  notFound : Option Nat := none
  methodNotAllowed : Option Nat := none
  panicHandler : Option Nat := none
  maxParams : Nat := 0
deriving DecidableEq, Repr

/-- New returns a new initialized Router: path auto-correction, 405 and
OPTIONS handling enabled, everything else at its zero value (api.go,
`New`). -/
def New : Router :=
  { redirectTrailingSlash := true
    redirectFixedPath := true
    handleMethodNotAllowed := true
    handleOPTIONS := true }

/-- The tree registered for a method, if any (`r.trees[method]`). -/
def findTree (ts : List (List Char × List Route)) (m : List Char) :
    Option (List Route) :=
  match ts with
  | [] => none
  | t :: rest => if t.1 = m then some t.2 else findTree rest m

/-- Replace the tree stored for a method. -/
def setTree (ts : List (List Char × List Route)) (m : List Char)
    (tree : List Route) : List (List Char × List Route) :=
  ts.map (fun t => if t.1 = m then (t.1, tree) else t)

/-- Lexicographic comparison of Go strings (byte-wise `<`; the methods
compared here are ASCII so char-wise comparison agrees). -/
def strLt : List Char → List Char → Bool
  | [], [] => false
  | [], _ :: _ => true
  | _ :: _, [] => false
  | a :: as, b :: bs =>
      if a < b then true else if b < a then false else strLt as bs

/-- Insert a string into a sorted list, after any equal elements — one
step of the insertion sort in `allowed` (router.go). -/
def insertStr (x : List Char) : List (List Char) → List (List Char)
  | [] => [x]
  | y :: ys => if strLt x y then x :: y :: ys else y :: insertStr x ys

/-- The insertion sort performed on the collected methods in `allowed`
(router.go). -/
def sortStrs : List (List Char) → List (List Char)
  | [] => []
  | x :: xs => insertStr x (sortStrs xs)

/-- `strings.Join(l, ", ")` (router.go). -/
def joinCommaSpace : List (List Char) → List Char
  | [] => []
  | [x] => x
  | x :: xs => x ++ ',' :: ' ' :: joinCommaSpace xs

/-- The tail of `allowed` (router.go lines 49-66): when any method was
collected, append OPTIONS, sort ascending, and join with a comma-space
separator; otherwise the empty string. -/
def mkAllow (ms : List (List Char)) : List Char :=
  match ms with
  | [] => []
  | _ :: _ => joinCommaSpace (sortStrs (ms ++ [str "OPTIONS"]))

/-- The methods collected by `allowed` for a specific path: every
registered method other than the requested one and OPTIONS whose tree
lookup yields a handler (router.go lines 35-46). -/
def matchingMethods (r : Router) (path reqMethod : List Char) :
    List (List Char) :=
  (r.trees.filter (fun t =>
      t.1 ≠ reqMethod ∧ t.1 ≠ str "OPTIONS" ∧ (lookupTree t.2 path).1.isSome)).map
    (fun t => t.1)

/-- `Router.allowed` (router.go lines 18-67): for `"*"` with an empty
requested method every registered method except OPTIONS is collected (the
internal cache-refresh call); for `"*"` otherwise the cached value is
returned; for a specific path the methods whose trees match are
collected. -/
def allowed (r : Router) (path reqMethod : List Char) : List Char :=
  if path = str "*" then
    if reqMethod = [] then
      mkAllow ((r.trees.map (fun t => t.1)).filter (fun m => m ≠ str "OPTIONS"))
    else r.globalAllowed
  else mkAllow (matchingMethods r path reqMethod)

/-- `Router.Handle` (api.go lines 181-225): validate method, path and
handler, lazily create the method tree — refreshing `globalAllowed` via
`allowed("*", "")` exactly when a new method tree is created — then add
the route and update `maxParams`.  Go panics become `Except.error`; every
check precedes any state change, as in the source. -/
def Handle (r : Router) (method path : List Char) (handle : Option Nat) :
    Except RegErr Router :=
  if method = [] then Except.error RegErr.emptyMethod
  else if path = [] ∨ path.head? ≠ some '/' then Except.error RegErr.invalidPath
  else
    match handle with
    | none => Except.error RegErr.nilHandle
    | some h =>
        match findTree r.trees method with
        | some root =>
            match addRoute root path h with
            | Except.error e => Except.error e
            | Except.ok root2 =>
                Except.ok { r with
                  trees := setTree r.trees method root2
                  maxParams := max r.maxParams (countParams path +
                    (if r.saveMatchedRoutePath then 1 else 0)) }
        | none =>
            match addRoute [] path h with
            | Except.error e => Except.error e
            | Except.ok root2 =>
                Except.ok { r with
                  trees := setTree (r.trees ++ [(method, ([] : List Route))]) method root2
                  globalAllowed :=
                    allowed { r with trees := r.trees ++ [(method, ([] : List Route))] }
                      (str "*") []
                  maxParams := max r.maxParams (countParams path +
                    (if r.saveMatchedRoutePath then 1 else 0)) }

/-- A registration request: method, path, handler. -/
abbrev RegOp := List Char × List Char × Option Nat

/-- Apply a sequence of `Handle` registrations, stopping at the first
failure. -/
def applyRegs (r : Router) : List RegOp → Except RegErr Router
  | [] => Except.ok r
  | op :: ops =>
      match Handle r op.1 op.2.1 op.2.2 with
      | Except.ok r2 => applyRegs r2 ops
      | Except.error e => Except.error e

/-- `Router.Lookup` (api.go lines 282-295): look up a method + path combo,
returning the handler, the captured params and the trailing-slash
recommendation. -/
def Lookup (r : Router) (method path : List Char) :
    Option Nat × Params × Bool :=
  match findTree r.trees method with
  | some root => lookupTree root path
  | none => (none, [], false)

/-- The observable outcome of dispatching one request (router.go). -/
inductive Response where
  | served (h : Nat) (ps : Params)
  | redirect (code : Nat) (target : List Char)
  | optionsReply (allow : List Char) (globalHandler : Option Nat)
  | notAllowed (allow : List Char) (handler : Option Nat)
  | notFound (handler : Option Nat)
deriving DecidableEq, Repr

/-- `Router.serveHTTP` (router.go lines 70-120): one dispatch attempt for
one method.  `findCI` stands for `root.findCaseInsensitivePath` and
`clean` for `CleanPath`, whose sources are missing; the attempt is proved
for every such function.  `none` models the `return false` fall-through. -/
def serveAttempt (r : Router)
    (findCI : List Char → List Char → Bool → Option (List Char))
    (clean : List Char → List Char) (method path : List Char) :
    Option Response :=
  match findTree r.trees method with
  | none => none
  | some root =>
      match lookupTree root path with
      | (some h, ps, _) => some (Response.served h ps)
      | (none, _, tsr) =>
          if method ≠ str "CONNECT" ∧ path ≠ str "/" then
            let code := if method = str "GET" then 301 else 308
            if tsr ∧ r.redirectTrailingSlash then
              let target :=
                if 1 < path.length ∧ path.getLast? = some '/' then path.dropLast
                else path ++ ['/']
              some (Response.redirect code target)
            else if r.redirectFixedPath then
              match findCI method (clean path) r.redirectTrailingSlash with
              | some fixed => some (Response.redirect code fixed)
              | none => none
            else none
          else none

/-- The tail of `Router.ServeHTTP` (router.go lines 135-166), reached when
no dispatch attempt served the request: automatic OPTIONS replies, 405
synthesis with an Allow header, and the 404 fallback. -/
def noRouteResponse (r : Router) (method path : List Char) : Response :=
  if method = str "OPTIONS" ∧ r.handleOPTIONS then
    if allowed r path (str "OPTIONS") ≠ [] then
      Response.optionsReply (allowed r path (str "OPTIONS")) r.globalOPTIONS
    else Response.notFound r.notFound
  else if r.handleMethodNotAllowed then
    if allowed r path method ≠ [] then
      Response.notAllowed (allowed r path method) r.methodNotAllowed
    else Response.notFound r.notFound
  else Response.notFound r.notFound

/-- `Router.ServeHTTP` (router.go lines 123-167): primary attempt with the
request method, the implicit HEAD→GET retry, then the no-route tail. -/
def ServeHTTP (r : Router)
    (findCI : List Char → List Char → Bool → Option (List Char))
    (clean : List Char → List Char) (method path : List Char) : Response :=
  match serveAttempt r findCI clean method path with
  | some res => res
  | none =>
      match
        (if method = str "HEAD" then serveAttempt r findCI clean (str "GET") path
         else none) with
      | some res => res
      | none => noRouteResponse r method path

/-- A request as the adapters see it: URL path, raw path, the params entry
of its context, and an opaque residue standing for every other field. -/
structure Req where
  path : List Char
  rawPath : List Char
  ctxParams : Ctx
  rest : Nat
deriving DecidableEq, Repr

/-- `storeParams` (additions.go): attach non-empty captured params to the
request context via `WithParams`. -/
def storeParams (p : Params) (req : Req) : Req :=
  if 0 < p.length then { req with ctxParams := WithParams req.ctxParams p }
  else req

/-- `strings.IndexByte` (as an index option instead of -1). -/
def idxByte : List Char → Char → Option Nat
  | [], _ => none
  | c :: cs, b => if c = b then some 0 else (idxByte cs b).map (fun i => i + 1)

/-- `strings.HasSuffix`. -/
def endsWith (s p : List Char) : Bool :=
  decide (p.length ≤ s.length ∧ s.drop (s.length - p.length) = p)

/-- SubRouter path validation errors (the panics in additions.go). -/
inductive SubErr where
  | badSuffix
  | extraStar
deriving DecidableEq, Repr

/-- The single-star check of `SubRouter` (additions.go line 66): a `*`
at a positive index of the path with its final `*filepath` removed is
rejected. -/
def starCheck (p : List Char) : Except SubErr (List Char) :=
  match idxByte (p.take (p.length - 9)) '*' with
  | some i => if 0 < i then Except.error SubErr.extraStar else Except.ok p
  | none => Except.ok p

/-- The path validation and expansion of `SubRouter` (additions.go lines
60-68): a path ending in `/*` has `filepath` appended; any path ending in
neither `/*` nor `/*filepath` is rejected; then the single-star check. -/
def subRouterPath (path : List Char) : Except SubErr (List Char) :=
  if endsWith path (str "/*") then starCheck (path ++ str "filepath")
  else if !endsWith path (str "/*filepath") then Except.error SubErr.badSuffix
  else starCheck path

/-- `AllMethods` (additions.go). -/
def AllMethods : List (List Char) :=
  [str "HEAD", str "GET", str "PUT", str "POST", str "DELETE", str "PATCH",
   str "OPTIONS"]

/-- `Router.HandleAll` (additions.go lines 26-33): register the handler
under every listed method, defaulting to `AllMethods`. -/
def HandleAll (r : Router) (path : List Char) (handle : Option Nat)
    (methods : List (List Char)) : Except RegErr Router :=
  (if methods = [] then AllMethods else methods).foldlM
    (fun acc m => Handle acc m path handle) r

/-- `Router.SubRouter` (additions.go lines 59-78): validate and expand the
path, then register the wrapping handler (represented by its identifier)
under the requested methods, defaulting to `AllMethods`. -/
def SubRouter (r : Router) (path : List Char) (wrapped : Nat)
    (methods : List (List Char)) : Except (Sum SubErr RegErr) Router :=
  match subRouterPath path with
  | Except.error e => Except.error (Sum.inl e)
  | Except.ok p =>
      let ms := if methods = [] then AllMethods else methods
      match HandleAll r p (some wrapped) ms with
      | Except.error e => Except.error (Sum.inr e)
      | Except.ok r2 => Except.ok r2

/-- The request transformation performed by the handler that `SubRouter`
registers (additions.go lines 74-77): the URL path is rewritten to the
captured `filepath` value and the captured params are stored in the
context. -/
def subRouterDispatch (req : Req) (ps : Params) : Req :=
  storeParams ps { req with path := byName ps (str "filepath") }

/-- The loop body of `doStripLeadingSegments` (stripsegments.go lines
41-52): repeatedly cut the path at the slash ending its first segment. -/
def stripPath (p : List Char) : Nat → List Char
  | 0 => p
  | n + 1 =>
      if p = [] then p
      else
        match idxByte (p.drop 1) '/' with
        | some slash =>
            if 0 < slash then stripPath (p.drop (slash + 1)) n
            else stripPath [] n
        | none => stripPath [] n

/-- `doStripLeadingSegments` (stripsegments.go lines 33-57): the delegate
receives a fresh request whose URL path has the leading segments removed
and whose raw path is discarded; every other field is copied. -/
def doStripLeadingSegments (r : Req) (unwantedSegments : Nat) : Req :=
  { r with path := stripPath r.path unwantedSegments, rawPath := [] }

/-- `StripLeadingSegments` (stripsegments.go lines 23-31): with zero
segments to drop the handler itself is returned; otherwise a wrapper that
delegates to it on the stripped copy of the request. -/
def StripLeadingSegments (unwantedSegments : Nat) (handler : Req → Nat) :
    Req → Nat :=
  if unwantedSegments = 0 then handler
  else fun r => handler (doStripLeadingSegments r unwantedSegments)

end HttpRouter

deriving instance DecidableEq for Except

namespace HttpRouter

/-- C10: `New()` returns a router with RedirectTrailingSlash,
RedirectFixedPath, HandleMethodNotAllowed and HandleOPTIONS all enabled
and every other field at its zero value: no trees, SaveMatchedRoutePath
false, no fallback handlers, empty cached allow list, zero maxParams. -/
theorem new_defaults :
    New.redirectTrailingSlash = true ∧ New.redirectFixedPath = true ∧
    New.handleMethodNotAllowed = true ∧ New.handleOPTIONS = true ∧
    New.trees = [] ∧ New.saveMatchedRoutePath = false ∧
    New.globalOPTIONS = none ∧ New.globalAllowed = [] ∧
    New.notFound = none ∧ New.methodNotAllowed = none ∧
    New.panicHandler = none ∧ New.maxParams = 0 :=
  ⟨rfl, rfl, rfl, rfl, rfl, rfl, rfl, rfl, rfl, rfl, rfl, rfl⟩

/-- C8: reading params after `WithParams(ctx, ps)` yields `ps` when the
context held no params, and the previously stored params with `ps`
appended when it did. -/
theorem withParams_append (ctx : Ctx) (ps : Params) :
    (ctx = none → GetParams (WithParams ctx ps) = ps) ∧
    (∀ old, ctx = some old → GetParams (WithParams ctx ps) = old ++ ps) := by
  constructor
  · intro h
    subst h
    rfl
  · intro old h
    subst h
    rfl

/-- Witness for C8 at a concrete context and params list. -/
theorem withParams_append_witness :
    GetParams (WithParams none [⟨str "a", str "b"⟩]) = [⟨str "a", str "b"⟩] ∧
    GetParams (WithParams (some [⟨str "x", str "y"⟩]) [⟨str "a", str "b"⟩]) =
      [⟨str "x", str "y"⟩] ++ [⟨str "a", str "b"⟩] :=
  ⟨(withParams_append none [⟨str "a", str "b"⟩]).1 rfl,
   (withParams_append (some [⟨str "x", str "y"⟩]) [⟨str "a", str "b"⟩]).2
     [⟨str "x", str "y"⟩] rfl⟩

/-- C6: `Handle` fails whenever the method is empty, the path is empty or
does not begin with a slash, or the handler is nil; each failure is
reported before any state is created, so no route is registered (the
checks in the source precede every tree mutation, and an `error` result
carries no router state). -/
theorem handle_validation (r : Router) (method path : List Char)
    (handle : Option Nat) :
    (method = [] → Handle r method path handle = Except.error RegErr.emptyMethod) ∧
    (method ≠ [] → (path = [] ∨ path.head? ≠ some '/') →
      Handle r method path handle = Except.error RegErr.invalidPath) ∧
    (method ≠ [] → path ≠ [] → path.head? = some '/' → handle = none →
      Handle r method path handle = Except.error RegErr.nilHandle) := by
  refine ⟨?_, ?_, ?_⟩
  · intro h
    simp [Handle, h]
  · intro h1 h2
    simp [Handle, h1, h2]
  · intro h1 h2 h3 h4
    simp [Handle, h1, h2, h3, h4]

/-- Witness for C6: the three failure cases at concrete inputs. -/
theorem handle_validation_witness :
    Handle New [] (str "/") (some 1) = Except.error RegErr.emptyMethod ∧
    Handle New (str "GET") (str "x") (some 1) = Except.error RegErr.invalidPath ∧
    Handle New (str "GET") (str "/") none = Except.error RegErr.nilHandle :=
  ⟨(handle_validation New [] (str "/") (some 1)).1 rfl,
   (handle_validation New (str "GET") (str "x") (some 1)).2.1 (by decide) (by decide),
   (handle_validation New (str "GET") (str "/") none).2.2 (by decide) (by decide)
     (by decide) rfl⟩

/-- C5: when the primary dispatch attempt for a HEAD request does not
serve, `ServeHTTP` retries the whole attempt with method GET and serves
its result; in particular a path registered only under GET serves HEAD
requests with the GET handler. -/
theorem head_retries_get (r : Router)
    (findCI : List Char → List Char → Bool → Option (List Char))
    (clean : List Char → List Char) (path : List Char) (res : Response)
    (h1 : serveAttempt r findCI clean (str "HEAD") path = none)
    (h2 : serveAttempt r findCI clean (str "GET") path = some res) :
    ServeHTTP r findCI clean (str "HEAD") path = res := by
  simp [ServeHTTP, h1, h2]

/-- The router with only `GET /foo` registered (handler 7), used as a
concrete dispatch example. -/
def rFoo : Router :=
  (applyRegs New [(str "GET", str "/foo", some 7)]).toOption.getD New

/-- A `findCaseInsensitivePath` oracle that never finds a fixed path. -/
def noCI : List Char → List Char → Bool → Option (List Char) :=
  fun _ _ _ => none

/-- Witness for C5: with only `GET /foo` registered, a HEAD request for
`/foo` is served by the GET handler. -/
theorem head_retries_get_witness :
    serveAttempt rFoo noCI id (str "HEAD") (str "/foo") = none ∧
    serveAttempt rFoo noCI id (str "GET") (str "/foo") =
      some (Response.served 7 []) ∧
    ServeHTTP rFoo noCI id (str "HEAD") (str "/foo") = Response.served 7 [] :=
  ⟨by decide, by decide,
   head_retries_get rFoo noCI id (str "/foo") (Response.served 7 [])
     (by decide) (by decide)⟩

/-- Stripping segments from an empty path yields the empty path. -/
theorem stripPath_nil : ∀ n, stripPath [] n = []
  | 0 => rfl
  | _ + 1 => rfl

/-- `idxByte` finds nothing when the byte does not occur. -/
theorem idxByte_eq_none (c : Char) : ∀ l : List Char, c ∉ l → idxByte l c = none := by
  intro l
  induction l with
  | nil => intro _; rfl
  | cons a as ih =>
      intro h
      have h1 : a ≠ c := fun he => h (he ▸ List.mem_cons_self a as)
      have h2 : c ∉ as := fun hm => h (List.mem_cons_of_mem a hm)
      simp [idxByte, h1, ih h2]

/-- `idxByte` finds the first slash right after a slash-free block. -/
theorem idxByte_block (c : Char) (z : List Char) :
    ∀ s : List Char, c ∉ s → idxByte (s ++ c :: z) c = some s.length := by
  intro s
  induction s with
  | nil => intro _; simp [idxByte]
  | cons a as ih =>
      intro h
      have h1 : a ≠ c := fun he => h (he ▸ List.mem_cons_self a as)
      have h2 : c ∉ as := fun hm => h (List.mem_cons_of_mem a hm)
      simp [idxByte, h1, ih h2]

/-- The stripping loop removes exactly the leading segments of a
well-formed path whose segments are non-empty and slash-free. -/
theorem stripPath_join : ∀ (n : Nat) (segs : List (List Char)), segs ≠ [] →
    (∀ x ∈ segs, x ≠ [] ∧ ('/' : Char) ∉ x) →
    stripPath ('/' :: joinSlash segs) n =
      if segs.drop n = [] then [] else '/' :: joinSlash (segs.drop n) := by
  intro n
  induction n with
  | zero =>
      intro segs hne _
      simp [stripPath, hne]
  | succ n ih =>
      intro segs hne hgood
      match segs with
      | s :: rest =>
        have hs := hgood s (List.mem_cons_self s rest)
        match rest with
        | [] =>
            have hidx : idxByte s '/' = none := idxByte_eq_none '/' s hs.2
            simp [stripPath, joinSlash, hidx, stripPath_nil]
        | t :: ts =>
            have hidx : idxByte (s ++ '/' :: joinSlash (t :: ts)) '/' =
                some s.length := idxByte_block '/' (joinSlash (t :: ts)) s hs.2
            have hlen : 0 < s.length := List.length_pos.mpr hs.1
            have hdrop : ('/' :: (s ++ '/' :: joinSlash (t :: ts))).drop (s.length + 1) =
                '/' :: joinSlash (t :: ts) := by
              have hstep : ('/' :: (s ++ '/' :: joinSlash (t :: ts))).drop (s.length + 1) =
                  (s ++ '/' :: joinSlash (t :: ts)).drop s.length := by
                simp [List.drop_succ_cons]
              rw [hstep, List.drop_left]
            have hrest : (t :: ts : List (List Char)) ≠ [] := by simp
            have hgood2 : ∀ x ∈ t :: ts, x ≠ [] ∧ ('/' : Char) ∉ x :=
              fun x hx => hgood x (List.mem_cons_of_mem s hx)
            calc stripPath ('/' :: joinSlash (s :: t :: ts)) (n + 1)
                = stripPath ('/' :: joinSlash (t :: ts)) n := by
                  simp [stripPath, joinSlash, hidx, hlen, hdrop]
              _ = if (t :: ts : List (List Char)).drop n = [] then []
                  else '/' :: joinSlash ((t :: ts : List (List Char)).drop n) :=
                  ih (t :: ts) hrest hgood2

/-- C9: `StripLeadingSegments(0, h)` is the handler itself; with `n > 0`
the wrapper delegates to the handler on a copy of the request whose URL
path has the first `n` segments removed and whose raw path is cleared,
with every other field of the request unchanged; on a well-formed path
the stripping drops exactly the first `n` path segments. -/
theorem stripLeadingSegments_spec (handler : Req → Nat) (n : Nat) (req : Req)
    (segs : List (List Char)) :
    (StripLeadingSegments 0 handler = handler) ∧
    (n ≠ 0 → StripLeadingSegments n handler req =
        handler (doStripLeadingSegments req n)) ∧
    ((doStripLeadingSegments req n).path = stripPath req.path n ∧
     (doStripLeadingSegments req n).rawPath = [] ∧
     (doStripLeadingSegments req n).ctxParams = req.ctxParams ∧
     (doStripLeadingSegments req n).rest = req.rest) ∧
    (segs ≠ [] → (∀ x ∈ segs, x ≠ [] ∧ ('/' : Char) ∉ x) →
      stripPath ('/' :: joinSlash segs) n =
        if segs.drop n = [] then [] else '/' :: joinSlash (segs.drop n)) := by
  refine ⟨rfl, ?_, ⟨rfl, rfl, rfl, rfl⟩, fun h1 h2 => stripPath_join n segs h1 h2⟩
  intro hn
  simp [StripLeadingSegments, hn]

/-- Witness for C9 at the test vector `/a/123/z` with two segments
stripped. -/
theorem stripLeadingSegments_spec_witness :
    (StripLeadingSegments 0 (fun rq => rq.rest) = fun rq => rq.rest) ∧
    StripLeadingSegments 2 (fun rq => rq.rest)
        ⟨str "/a/123/z", str "", none, 5⟩ =
      (fun rq => rq.rest)
        (doStripLeadingSegments ⟨str "/a/123/z", str "", none, 5⟩ 2) ∧
    stripPath ('/' :: joinSlash [str "a", str "123", str "z"]) 2 =
      (if ([str "a", str "123", str "z"].drop 2 : List (List Char)) = [] then []
       else '/' :: joinSlash ([str "a", str "123", str "z"].drop 2)) := by
  have h := stripLeadingSegments_spec (fun rq => rq.rest) 2
    ⟨str "/a/123/z", str "", none, 5⟩ [str "a", str "123", str "z"]
  exact ⟨h.1, h.2.1 (by decide), h.2.2.2 (by decide) (by decide)⟩

/-- A list always ends with its own appended suffix. -/
theorem endsWith_append (q p : List Char) : endsWith (q ++ p) p = true := by
  simp only [endsWith, decide_eq_true_eq]
  constructor
  · simp
  · have hlen : (q ++ p).length - p.length = q.length := by simp
    rw [hlen, List.drop_left]

/-- Expanding a `/*` path: appending `filepath` and passing the
single-star check when the stem is star-free. -/
theorem subRouterPath_expand (q : List Char) (h : ('*' : Char) ∉ q) :
    subRouterPath (q ++ str "/*") = Except.ok (q ++ str "/*filepath") := by
  have h1 : endsWith (q ++ str "/*") (str "/*") = true := endsWith_append q (str "/*")
  have happ : (q ++ str "/*") ++ str "filepath" = q ++ str "/*filepath" := by
    rw [List.append_assoc]
    rfl
  have hlen : (q ++ str "/*filepath").length - 9 = q.length + 1 := by
    simp [str, List.length_append]
  have htake : (q ++ str "/*filepath").take (q.length + 1) = q ++ ['/'] := by
    have hq : (q ++ str "/*filepath").take (q.length + 1) =
        q ++ (str "/*filepath").take 1 := List.take_append 1
    rw [hq]
    rfl
  have hnost : ('*' : Char) ∉ q ++ ['/'] := by
    intro hmem
    rcases List.mem_append.mp hmem with hq | hone
    · exact h hq
    · simp at hone
  have hidx : idxByte (q ++ ['/']) '*' = none := idxByte_eq_none '*' (q ++ ['/']) hnost
  rw [subRouterPath]
  rw [if_pos h1, happ]
  rw [starCheck, hlen, htake, hidx]

/-- C7: `SubRouter` rejects every path ending in neither `/*` nor
`/*filepath`; a path ending in `/*` is expanded by appending `filepath`;
and the handler that it registers rewrites the request URL path to the
captured `filepath` value and stores the captured params in the request
context (appending to any params already there). -/
theorem subRouter_spec (p q : List Char) (r : Router) (wrapped : Nat)
    (methods : List (List Char)) (req : Req) (ps : Params) :
    (endsWith p (str "/*") = false → endsWith p (str "/*filepath") = false →
      SubRouter r p wrapped methods = Except.error (Sum.inl SubErr.badSuffix)) ∧
    (('*' : Char) ∉ q →
      subRouterPath (q ++ str "/*") = Except.ok (q ++ str "/*filepath")) ∧
    ((subRouterDispatch req ps).path = byName ps (str "filepath")) ∧
    (0 < ps.length →
      (subRouterDispatch req ps).ctxParams = some (GetParams req.ctxParams ++ ps)) := by
  refine ⟨?_, fun h => subRouterPath_expand q h, ?_, ?_⟩
  · intro h1 h2
    simp [SubRouter, subRouterPath, h1, h2]
  · by_cases hp : 0 < ps.length
    · simp [subRouterDispatch, storeParams, hp]
    · simp [subRouterDispatch, storeParams, hp]
  · intro hp
    cases hctx : req.ctxParams with
    | none => simp [subRouterDispatch, storeParams, hp, WithParams, GetParams, hctx]
    | some old => simp [subRouterDispatch, storeParams, hp, WithParams, GetParams, hctx]

/-- Witness for C7 at concrete paths, request and params. -/
theorem subRouter_spec_witness :
    SubRouter New (str "/noFilepath") 3 [] =
      Except.error (Sum.inl SubErr.badSuffix) ∧
    subRouterPath (str "/top/:top" ++ str "/*") =
      Except.ok (str "/top/:top" ++ str "/*filepath") ∧
    (subRouterDispatch ⟨str "/top/rank/user/gopher", [], none, 0⟩
        [⟨str "top", str "rank"⟩, ⟨str "filepath", str "/user/gopher"⟩]).path =
      byName [⟨str "top", str "rank"⟩, ⟨str "filepath", str "/user/gopher"⟩]
        (str "filepath") ∧
    (subRouterDispatch ⟨str "/top/rank/user/gopher", [], none, 0⟩
        [⟨str "top", str "rank"⟩, ⟨str "filepath", str "/user/gopher"⟩]).ctxParams =
      some (GetParams (none : Ctx) ++
        [⟨str "top", str "rank"⟩, ⟨str "filepath", str "/user/gopher"⟩]) := by
  have h := subRouter_spec (str "/noFilepath") (str "/top/:top") New 3 []
    ⟨str "/top/rank/user/gopher", [], none, 0⟩
    [⟨str "top", str "rank"⟩, ⟨str "filepath", str "/user/gopher"⟩]
  exact ⟨h.1 (by decide) (by decide), h.2.1 (by decide), h.2.2.1, h.2.2.2 (by decide)⟩

/-- A single dispatch attempt redirects only for a non-CONNECT method and
a path other than the root, and its status code is 301 exactly when the
method used for the attempt is GET, 308 otherwise. -/
theorem serveAttempt_redirect (r : Router)
    (findCI : List Char → List Char → Bool → Option (List Char))
    (clean : List Char → List Char) (method path : List Char)
    (code : Nat) (target : List Char)
    (h : serveAttempt r findCI clean method path =
      some (Response.redirect code target)) :
    method ≠ str "CONNECT" ∧ path ≠ str "/" ∧
      code = (if method = str "GET" then 301 else 308) := by
  unfold serveAttempt at h
  repeat' split at h
  all_goals simp_all

/-- The no-route tail never issues a redirect. -/
theorem noRouteResponse_ne_redirect (r : Router) (method path : List Char)
    (code : Nat) (target : List Char) :
    noRouteResponse r method path ≠ Response.redirect code target := by
  unfold noRouteResponse
  intro h
  repeat' split at h
  all_goals simp_all

/-- C2 (amended): a redirect issued by `ServeHTTP` never happens for
CONNECT or for the root path, and its status code is 301 when the
dispatch attempt that produced it used GET — which for a HEAD request can
be the implicit GET retry — and 308 otherwise; so a GET request always
redirects with 301, a request with a method other than GET or HEAD always
with 308, and a HEAD request with 301 or 308. -/
theorem serveHTTP_redirect_codes (r : Router)
    (findCI : List Char → List Char → Bool → Option (List Char))
    (clean : List Char → List Char) (method path : List Char)
    (code : Nat) (target : List Char)
    (h : ServeHTTP r findCI clean method path = Response.redirect code target) :
    method ≠ str "CONNECT" ∧ path ≠ str "/" ∧
      (method = str "GET" → code = 301) ∧
      (method ≠ str "GET" → method ≠ str "HEAD" → code = 308) ∧
      (code = 301 ∨ code = 308) := by
  unfold ServeHTTP at h
  cases h1 : serveAttempt r findCI clean method path with
  | some res =>
      rw [h1] at h
      subst h
      have hs := serveAttempt_redirect r findCI clean method path code target h1
      refine ⟨hs.1, hs.2.1, ?_, ?_, ?_⟩
      · intro hg
        rw [hs.2.2, if_pos hg]
      · intro hg _
        rw [hs.2.2, if_neg hg]
      · rw [hs.2.2]
        by_cases hg : method = str "GET"
        · rw [if_pos hg]; exact Or.inl rfl
        · rw [if_neg hg]; exact Or.inr rfl
  | none =>
      rw [h1] at h
      by_cases hh : method = str "HEAD"
      · rw [if_pos hh] at h
        cases h2 : serveAttempt r findCI clean (str "GET") path with
        | some res =>
            rw [h2] at h
            subst h
            have hs := serveAttempt_redirect r findCI clean (str "GET") path
              code target h2
            have hc : code = 301 := by
              have := hs.2.2
              simpa using this
            refine ⟨?_, hs.2.1, ?_, ?_, Or.inl hc⟩
            · rw [hh]; decide
            · intro _; exact hc
            · intro _ hne; exact absurd hh hne
        | none =>
            rw [h2] at h
            exact absurd h (noRouteResponse_ne_redirect r method path code target)
      · rw [if_neg hh] at h
        exact absurd h (noRouteResponse_ne_redirect r method path code target)

/-- Witness for C2's theorem: a GET request for `/foo/` against a router
knowing only `GET /foo` is redirected, and the theorem applies. -/
theorem serveHTTP_redirect_codes_witness :
    str "GET" ≠ str "CONNECT" ∧ str "/foo/" ≠ str "/" ∧
      ((str "GET" : List Char) = str "GET" → (301 : Nat) = 301) := by
  have h := serveHTTP_redirect_codes rFoo noCI id (str "GET") (str "/foo/")
    301 (str "/foo") (by decide)
  exact ⟨h.1, h.2.1, fun _ => rfl⟩

/-- Counterexample to C2 as stated: a HEAD request (not GET) for `/foo/`
against a router knowing only `GET /foo` is redirected with status 301,
not the claimed 308, because the redirect is issued by the implicit GET
retry. -/
theorem serveHTTP_head_redirect_301 :
    ServeHTTP rFoo noCI id (str "HEAD") (str "/foo/") =
      Response.redirect 301 (str "/foo") ∧
    str "HEAD" ≠ str "GET" ∧ (301 : Nat) ≠ 308 :=
  ⟨by decide, by decide, by decide⟩

/-- Ascending order of adjacent elements under the comparison used by the
insertion sort in `allowed`. -/
def sortedB : List (List Char) → Bool
  | [] => true
  | [_] => true
  | x :: y :: rest => !strLt y x && sortedB (y :: rest)

/-- The string comparison is asymmetric. -/
theorem strLt_asymm : ∀ a b : List Char, strLt a b = true → strLt b a = false
  | [], [] => by simp [strLt]
  | [], _ :: _ => by simp [strLt]
  | _ :: _, [] => by simp [strLt]
  | a :: as, b :: bs => by
      simp only [strLt]
      intro h
      by_cases hab : a < b
      · have hba : ¬ b < a := fun hba => absurd hab (not_lt_of_gt hba)
        simp [hba, hab]
      · by_cases hba : b < a
        · simp [hab, hba] at h
        · simp only [hab, if_false, hba] at h
          simp [hba, hab, strLt_asymm as bs h]

/-- Inserting into a sorted list keeps it sorted. -/
theorem sortedB_insertStr (x : List Char) :
    ∀ l, sortedB l = true → sortedB (insertStr x l) = true := by
  intro l
  induction l with
  | nil => intro _; rfl
  | cons y ys ih =>
      intro hs
      by_cases hxy : strLt x y = true
      · have hyx := strLt_asymm x y hxy
        cases ys with
        | nil => simp [insertStr, hxy, sortedB, hyx]
        | cons z zs => simp [insertStr, hxy, sortedB, hyx, sortedB.eq_3] at hs ⊢; exact hs
      · have hxyf : strLt x y = false := by simpa using hxy
        cases ys with
        | nil => simp [insertStr, hxyf, sortedB, hxyf]
        | cons z zs =>
            have hszs : sortedB (z :: zs) = true := by
              simp [sortedB.eq_3] at hs
              exact hs.2
            have hzy : strLt z y = false := by
              simp [sortedB.eq_3] at hs
              exact hs.1
            have hins := ih hszs
            by_cases hxz : strLt x z = true
            · have hzx := strLt_asymm x z hxz
              simp [insertStr, hxyf, hxz, sortedB.eq_3, hxyf, hzx] at hins ⊢
              simpa [sortedB.eq_3, hzy] using hs
            · have hxzf : strLt x z = false := by simpa using hxz
              simp only [insertStr, hxyf, Bool.false_eq_true, if_false, hxzf] at hins ⊢
              simp [sortedB.eq_3, hzy]
              simpa [insertStr, hxzf] using hins

/-- The resulting sorted and joined list of the insertion sort. -/
theorem sortedB_sortStrs : ∀ l, sortedB (sortStrs l) = true
  | [] => rfl
  | x :: xs => sortedB_insertStr x (sortStrs xs) (sortedB_sortStrs xs)

/-- Inserting is a permutation of consing. -/
theorem insertStr_perm (x : List Char) : ∀ l, (insertStr x l).Perm (x :: l)
  | [] => List.Perm.refl _
  | y :: ys => by
      simp only [insertStr]
      by_cases hxy : strLt x y = true
      · simp [hxy]
      · simp only [hxy, if_false, Bool.false_eq_true]
        exact ((insertStr_perm x ys).cons y).trans (List.Perm.swap x y ys)

/-- The insertion sort permutes its input. -/
theorem sortStrs_perm : ∀ l, (sortStrs l).Perm l
  | [] => List.Perm.refl _
  | x :: xs => (insertStr_perm x (sortStrs xs)).trans ((sortStrs_perm xs).cons x)

/-- Joining two or more strings with a comma-space separator is never
empty. -/
theorem joinCommaSpace_ne_nil (l : List (List Char)) (h2 : 2 ≤ l.length) :
    joinCommaSpace l ≠ [] := by
  match l with
  | [] => simp at h2
  | [_] => simp at h2
  | x :: y :: rest =>
      intro hc
      simp only [joinCommaSpace] at hc
      have := congrArg List.length hc
      simp at this

/-- C3: for a specific path (not `"*"`), `allowed` returns the empty
string exactly when no method other than the requested one and OPTIONS
has a tree matching the path; otherwise it returns the matching methods
with OPTIONS appended, sorted ascending and joined with a comma-space
separator. -/
theorem allowed_spec (r : Router) (path reqMethod : List Char)
    (hstar : path ≠ str "*") :
    (allowed r path reqMethod = [] ↔ matchingMethods r path reqMethod = []) ∧
    (matchingMethods r path reqMethod ≠ [] →
      sortedB (sortStrs (matchingMethods r path reqMethod ++ [str "OPTIONS"])) = true ∧
      (sortStrs (matchingMethods r path reqMethod ++ [str "OPTIONS"])).Perm
        (matchingMethods r path reqMethod ++ [str "OPTIONS"]) ∧
      allowed r path reqMethod =
        joinCommaSpace (sortStrs (matchingMethods r path reqMethod ++ [str "OPTIONS"]))) := by
  have hA : allowed r path reqMethod = mkAllow (matchingMethods r path reqMethod) := by
    simp [allowed, hstar]
  constructor
  · cases hm : matchingMethods r path reqMethod with
    | nil => simp [hA, mkAllow, hm]
    | cons a as =>
        constructor
        · intro hempty
          exfalso
          rw [hA, hm] at hempty
          have hlen : 2 ≤ ((a :: as) ++ [str "OPTIONS"]).length := by
            simp
          have hlen2 : 2 ≤ (sortStrs ((a :: as) ++ [str "OPTIONS"])).length := by
            rw [(sortStrs_perm ((a :: as) ++ [str "OPTIONS"])).length_eq]
            exact hlen
          exact joinCommaSpace_ne_nil _ hlen2 hempty
        · intro hcontra
          simp [hm] at hcontra
  · intro hne
    refine ⟨sortedB_sortStrs _, sortStrs_perm _, ?_⟩
    rw [hA]
    cases hm : matchingMethods r path reqMethod with
    | nil => exact absurd hm hne
    | cons a as => simp [mkAllow]

/-- The router with `POST /path` and `GET /path` registered, used as a
concrete method-negotiation example. -/
def rPathPG : Router :=
  (applyRegs New
    [(str "POST", str "/path", some 1), (str "GET", str "/path", some 2)]).toOption.getD New

/-- Witness for C3: with POST and GET registered for `/path`, the allow
list computed for a PUT request is the sorted, comma-joined `GET, OPTIONS,
POST`. -/
theorem allowed_spec_witness :
    (allowed rPathPG (str "/path") (str "PUT") = [] ↔
      matchingMethods rPathPG (str "/path") (str "PUT") = []) ∧
    allowed rPathPG (str "/path") (str "PUT") = str "GET, OPTIONS, POST" := by
  have h := allowed_spec rPathPG (str "/path") (str "PUT") (by decide)
  refine ⟨h.1, ?_⟩
  decide

/-- The value `globalAllowed` is kept at: the registered methods except
OPTIONS, run through the tail of `allowed` (OPTIONS appended when any
remain, sorted, comma-joined). -/
def canonGlobal (methods : List (List Char)) : List Char :=
  mkAllow (methods.filter (fun m => m ≠ str "OPTIONS"))

/-- Replacing the tree of a method leaves the method list unchanged. -/
theorem setTree_map_fst (m : List Char) (tree : List Route) :
    ∀ ts : List (List Char × List Route),
      (setTree ts m tree).map (fun t => t.1) = ts.map (fun t => t.1) := by
  intro ts
  induction ts with
  | nil => rfl
  | cons t rest ih =>
      by_cases h : t.1 = m
      · simp [setTree, h] at ih ⊢
        simpa [setTree] using ih
      · simp [setTree, h] at ih ⊢
        simpa [setTree] using ih

/-- One successful registration preserves the `globalAllowed` cache
invariant: the cache is refreshed exactly when a new method tree is
created, which is the only time the method set changes. -/
theorem handle_preserves_global (r r2 : Router) (method path : List Char)
    (handle : Option Nat)
    (hinv : r.globalAllowed = canonGlobal (r.trees.map (fun t => t.1)))
    (hok : Handle r method path handle = Except.ok r2) :
    r2.globalAllowed = canonGlobal (r2.trees.map (fun t => t.1)) := by
  unfold Handle at hok
  repeat' split at hok
  all_goals try exact Except.noConfusion hok
  all_goals simp only [Except.ok.injEq] at hok
  all_goals subst hok
  all_goals first
    | simpa [setTree_map_fst] using hinv
    | simp [allowed, canonGlobal, setTree_map_fst]

/-- The cache invariant is preserved by any successful registration
sequence. -/
theorem applyRegs_preserves_global :
    ∀ (ops : List RegOp) (r r2 : Router),
      r.globalAllowed = canonGlobal (r.trees.map (fun t => t.1)) →
      applyRegs r ops = Except.ok r2 →
      r2.globalAllowed = canonGlobal (r2.trees.map (fun t => t.1)) := by
  intro ops
  induction ops with
  | nil =>
      intro r r2 hinv hok
      simp only [applyRegs, Except.ok.injEq] at hok
      exact hok ▸ hinv
  | cons op rest ih =>
      intro r r2 hinv hok
      simp only [applyRegs] at hok
      cases hH : Handle r op.1 op.2.1 op.2.2 with
      | error e => rw [hH] at hok; exact absurd hok (by simp)
      | ok rmid =>
          rw [hH] at hok
          exact ih rmid r2
            (handle_preserves_global r rmid op.1 op.2.1 op.2.2 hinv hH) hok

/-- C4 (amended): after every successful registration sequence from a
fresh router, `globalAllowed` equals the comma-joined ascending sort of
the registered methods excluding OPTIONS with OPTIONS then appended
(empty when no non-OPTIONS method is registered); it is recomputed
whenever a method tree is first created, which keeps it current after
every registration. -/
theorem globalAllowed_invariant (ops : List RegOp) (r : Router)
    (hok : applyRegs New ops = Except.ok r) :
    r.globalAllowed = canonGlobal (r.trees.map (fun t => t.1)) :=
  applyRegs_preserves_global ops New r rfl hok

/-- The registration sequence with the single `POST /path` route. -/
def regsPost : List RegOp := [(str "POST", str "/path", some 1)]

/-- The router obtained from that sequence. -/
def rPost : Router := (applyRegs New regsPost).toOption.getD New

/-- Witness for C4's theorem at the concrete one-registration sequence. -/
theorem globalAllowed_invariant_witness :
    rPost.globalAllowed = canonGlobal (rPost.trees.map (fun t => t.1)) :=
  globalAllowed_invariant regsPost rPost (by decide)

/-- Counterexample to C4 as stated: after registering only POST, the
sorted comma-joined list of registered methods excluding OPTIONS is
`POST`, but `globalAllowed` is `OPTIONS, POST` — the cache also carries
the appended OPTIONS entry. -/
theorem globalAllowed_counterexample :
    joinCommaSpace (sortStrs
        ((rPost.trees.map (fun t => t.1)).filter (fun m => m ≠ str "OPTIONS"))) =
      str "POST" ∧
    rPost.globalAllowed = str "OPTIONS, POST" ∧
    rPost.globalAllowed ≠ str "POST" :=
  ⟨by decide, by decide, by decide⟩

/-- No pattern is strictly more specific than itself. -/
theorem ranksLtB_self : ∀ l : List Nat, ranksLtB l l = false
  | [] => rfl
  | a :: as => by simp [ranksLtB, ranksLtB_self as]

/-- No pattern beats itself in the dispatch order. -/
theorem better_self (p : List Seg) : better p p = false := by
  simp [better, ranksLtB_self]

/-- Captured params carry the pattern's wildcard names in declaration
order. -/
theorem matchSegs_keys :
    ∀ (pat : List Seg) (segs : List (List Char)) (ps : Params),
      matchSegs pat segs = some ps →
      ps.map (fun p => p.key) = wildNames pat := by
  intro pat
  induction pat with
  | nil =>
      intro segs ps h
      cases segs with
      | nil =>
          simp only [matchSegs, Option.some.injEq] at h
          subst h
          rfl
      | cons x xs => simp [matchSegs] at h
  | cons sg rest ih =>
      intro segs ps h
      cases sg with
      | static s =>
          cases segs with
          | nil => simp [matchSegs] at h
          | cons x xs =>
              by_cases hx : s = x
              · rw [matchSegs, if_pos hx] at h
                simpa [wildNames] using ih xs ps h
              · rw [matchSegs, if_neg hx] at h
                exact absurd h (by simp)
      | param n =>
          cases segs with
          | nil => simp [matchSegs] at h
          | cons x xs =>
              by_cases hx : x ≠ []
              · rw [matchSegs, if_pos hx] at h
                cases hrec : matchSegs rest xs with
                | none => rw [hrec] at h; exact absurd h (by simp)
                | some ps2 =>
                    rw [hrec] at h
                    have h2 : (⟨n, x⟩ : Param) :: ps2 = ps := by simpa using h
                    subst h2
                    simp [wildNames, ih xs ps2 hrec]
              · rw [matchSegs, if_neg hx] at h
                exact absurd h (by simp)
      | catchAll n =>
          cases rest with
          | nil =>
              cases segs with
              | nil => simp [matchSegs] at h
              | cons x xs =>
                  simp only [matchSegs, Option.some.injEq] at h
                  subst h
                  rfl
          | cons sg2 rest2 =>
              cases segs with
              | nil => simp [matchSegs] at h
              | cons x xs => simp [matchSegs] at h

/-- Starting from the unique matching route, scanning routes that either
equal it or do not match keeps it selected. -/
theorem getValueAux_fixed (segs : List (List Char)) (rt : Route) (ps : Params)
    (hm : matchSegs rt.pattern segs = some ps) :
    ∀ l : List Route,
      (∀ rt2 ∈ l, rt2 = rt ∨ matchSegs rt2.pattern segs = none) →
      getValueAux segs (some (rt, ps)) l = some (rt, ps) := by
  intro l
  induction l with
  | nil => intro _; rfl
  | cons rt2 rest ih =>
      intro h
      have hrest : ∀ rt3 ∈ rest, rt3 = rt ∨ matchSegs rt3.pattern segs = none :=
        fun rt3 hm3 => h rt3 (List.mem_cons_of_mem rt2 hm3)
      cases h rt2 (List.mem_cons_self rt2 rest) with
      | inr hnone =>
          rw [getValueAux, hnone]
          exact ih hrest
      | inl heq =>
          subst heq
          rw [getValueAux, hm]
          simp only [better_self, Bool.false_eq_true, if_false]
          exact ih hrest

/-- When exactly one stored route matches the path, the lookup selects it
with its captured params. -/
theorem getValueAux_unique (segs : List (List Char)) (rt : Route) (ps : Params)
    (hm : matchSegs rt.pattern segs = some ps) :
    ∀ l : List Route, rt ∈ l →
      (∀ rt2 ∈ l, rt2 = rt ∨ matchSegs rt2.pattern segs = none) →
      getValueAux segs none l = some (rt, ps) := by
  intro l
  induction l with
  | nil => intro hmem; exact absurd hmem (List.not_mem_nil rt)
  | cons rt2 rest ih =>
      intro hmem h
      have hrest : ∀ rt3 ∈ rest, rt3 = rt ∨ matchSegs rt3.pattern segs = none :=
        fun rt3 hm3 => h rt3 (List.mem_cons_of_mem rt2 hm3)
      cases h rt2 (List.mem_cons_self rt2 rest) with
      | inl heq =>
          subst heq
          rw [getValueAux, hm]
          exact getValueAux_fixed segs rt2 ps hm rest hrest
      | inr hnone =>
          have hne : rt ≠ rt2 := by
            intro he
            rw [← he] at hnone
            rw [hm] at hnone
            exact Option.noConfusion hnone
          have hmem2 : rt ∈ rest := by
            cases List.mem_cons.mp hmem with
            | inl he => exact absurd he hne
            | inr hr => exact hr
          rw [getValueAux, hnone]
          exact ih hmem2 hrest

/-- C1 (amended): for a route registered in a method's tree and a path
whose segments match its pattern, when no other stored route matches the
path, `Lookup` returns that route's handler with the captured params
listed in the order the wildcards appear in the pattern.  (When several
routes match the same path, the tree's static-over-wildcard dispatch
selects the most specific one, which need not be the given route.) -/
theorem lookup_unique_match (r : Router) (m path : List Char)
    (root : List Route) (rt : Route) (segs : List (List Char)) (ps : Params)
    (hroot : findTree r.trees m = some root)
    (hsegs : pathSegs path = some segs)
    (hmem : rt ∈ root)
    (hmatch : matchSegs rt.pattern segs = some ps)
    (huniq : ∀ rt2 ∈ root, rt2 = rt ∨ matchSegs rt2.pattern segs = none) :
    Lookup r m path = (some rt.handler, ps, false) ∧
      ps.map (fun p => p.key) = wildNames rt.pattern := by
  have hg : getValue root segs = some (rt, ps) :=
    getValueAux_unique segs rt ps hmatch root hmem huniq
  constructor
  · simp only [Lookup, hroot, lookupTree, hsegs, hg]
  · exact matchSegs_keys rt.pattern segs ps hmatch

/-- The router with only `GET /user/:name` registered (handler 2). -/
def rUser : Router :=
  (applyRegs New [(str "GET", str "/user/:name", some 2)]).toOption.getD New

/-- Witness for C1 at the concrete route `GET /user/:name` and path
`/user/gopher`. -/
theorem lookup_unique_match_witness :
    Lookup rUser (str "GET") (str "/user/gopher") =
      (some 2, [⟨str "name", str "gopher"⟩], false) ∧
    ([⟨str "name", str "gopher"⟩] : Params).map (fun p => p.key) =
      wildNames [Seg.static (str "user"), Seg.param (str "name")] :=
  lookup_unique_match rUser (str "GET") (str "/user/gopher")
    [⟨[Seg.static (str "user"), Seg.param (str "name")], 2⟩]
    ⟨[Seg.static (str "user"), Seg.param (str "name")], 2⟩
    [str "user", str "gopher"] [⟨str "name", str "gopher"⟩]
    (by decide) (by decide) (by decide) (by decide) (by decide)

/-- The router with `GET /user/new` (handler 1) and `GET /user/:name`
(handler 2) registered. -/
def rUserBoth : Router :=
  (applyRegs New
    [(str "GET", str "/user/new", some 1),
     (str "GET", str "/user/:name", some 2)]).toOption.getD New

/-- Counterexample to C1 as stated: both `GET /user/new` and
`GET /user/:name` register successfully; the path `/user/new` matches the
pattern of the `:name` route (params `[(name, new)]`), yet looking it up
returns the static route's handler 1, not handler 2 with those params. -/
theorem lookup_counterexample :
    findTree rUserBoth.trees (str "GET") =
      some [⟨[Seg.static (str "user"), Seg.static (str "new")], 1⟩,
            ⟨[Seg.static (str "user"), Seg.param (str "name")], 2⟩] ∧
    pathSegs (str "/user/new") = some [str "user", str "new"] ∧
    matchSegs [Seg.static (str "user"), Seg.param (str "name")]
        [str "user", str "new"] = some [⟨str "name", str "new"⟩] ∧
    Lookup rUserBoth (str "GET") (str "/user/new") = (some 1, [], false) ∧
    (1 : Nat) ≠ 2 :=
  ⟨by decide, by decide, by decide, by decide, by decide⟩

end HttpRouter
